import Mathlib

/-
  Verification development for the `jp` command-line JSON query tool.

  The program has two components: a positional stream reader
  (`LineNumberReader`) that records, as bytes flow through it, the absolute
  byte offset of the start of every line, and a decode-evaluate-render
  pipeline (`runMain`) that drives a streaming JSON decoder over that
  reader and renders each query result.

  The embedding below is a direct translation of the Go source.  Bytes are
  `Nat` (the newline byte is 10), Go `int` offsets are `Int`, and Go slices
  are lists.  External collaborators (the JSON decoder, the query-language
  evaluator `jmespath.Search`, and the JSON serializers) are abstracted as
  parameters delivering the same outcomes the Go code branches on.
-/

/-- State of the positional stream reader (Go struct `LineNumberReader`):
the recorded start-of-line offsets and the running byte count. -/
structure LineNumberReader where
  newlinePositions : List Int
  bytesRead : Int
deriving Repr, DecidableEq

/-- Go `NewLineNumberReader`: fresh reader state (nil slice, zero count). -/
def NewLineNumberReader : LineNumberReader :=
  { newlinePositions := [], bytesRead := 0 }

/-- The `for i, v := range p` loop body of Go `Read`: walks the buffer with
index `i`, bails out (early `return`, flag `false`) as soon as `i >= n`,
and appends `b + i + 1` for every newline byte seen before that.  The
returned flag is `true` exactly when the loop ran to the end of the buffer,
i.e. when the statement after the loop is reached. -/
def scanLoop (b : Int) (n : Nat) : List Nat → Nat → List Int → List Int × Bool
  | [], _, acc => (acc, true)
  | v :: rest, i, acc =>
    if n ≤ i then (acc, false)
    else scanLoop b n rest (i + 1) (if v == 10 then acc ++ [b + (i : Int) + 1] else acc)

/-- Go `(*LineNumberReader).Read`, given the buffer contents `p` after the
underlying read, the byte count `n` it returned, and whether it returned an
error.  On an error or `n == 0` the state is untouched; otherwise the scan
loop runs, and `bytesRead` is incremented only when the loop completed
(the early `return` inside the loop skips the increment). -/
def LineNumberReader.Read (lnr : LineNumberReader) (p : List Nat) (n : Nat)
    (err : Bool) : LineNumberReader :=
  if err || n == 0 then lnr
  else
    let s := scanLoop lnr.bytesRead n p 0 lnr.newlinePositions
    { newlinePositions := s.1
      bytesRead := if s.2 then lnr.bytesRead + (n : Int) else lnr.bytesRead }

/-- Go `sort.SearchInts(a, x)`: the smallest index `i` with `a[i] >= x`
(`a.length` when none).  Go computes it by binary search over a sorted
slice; on sorted input that is exactly the first index satisfying the
predicate, which this linear form computes for every list. -/
def searchInts : List Int → Int → Nat
  | [], _ => 0
  | a :: rest, x => if x ≤ a then 0 else searchInts rest x + 1

/-- Go `(*LineNumberReader).ConvertOffset`: locate `offset` in the recorded
start-of-line table and return a 1-indexed `(line, column)` pair. -/
def LineNumberReader.ConvertOffset (lnr : LineNumberReader) (offset : Int) :
    Int × Int :=
  let index := searchInts lnr.newlinePositions offset
  if index == 0 then (1, offset)
  else ((index : Int) + 1, offset - lnr.newlinePositions.getD (index - 1) 0)

/-- Specification-side characterization of one scan: the offsets `b + i + 1`
for every newline byte of the chunk, `i` counting from the given start
index.  Used to state what `Read` records. -/
def nlOffAll (b : Int) : List Nat → Nat → List Int
  | [], _ => []
  | v :: rest, i =>
    (if v == 10 then [b + (i : Int) + 1] else []) ++ nlOffAll b rest (i + 1)

/-- Reading a whole input in one full-buffer read (`n = length`), the one
chunking on which the scan loop runs to completion. -/
def readFull (input : List Nat) : LineNumberReader :=
  NewLineNumberReader.Read input input.length false

/-- Start-of-line offset of 1-indexed line `i` of `input`: line 1 starts at
offset 0, line `i + 1` starts one past the `i`-th newline. -/
def lineStart (input : List Nat) (i : Nat) : Int :=
  ((0 : Int) :: nlOffAll 0 input 0).getD (i - 1) 0

/-! ### Lemmas about the scan loop and the search -/

lemma scanLoop_fst (b : Int) (n : Nat) (p : List Nat) (i : Nat) (acc : List Int) :
    (scanLoop b n p i acc).1 = acc ++ nlOffAll b (p.take (n - i)) i := by
  induction p generalizing i acc with
  | nil => simp [scanLoop, nlOffAll]
  | cons v rest ih =>
    by_cases h : n ≤ i
    · have h0 : n - i = 0 := by omega
      simp [scanLoop, h, h0, nlOffAll]
    · have ht : n - i = (n - (i + 1)) + 1 := by omega
      rw [ht]
      simp only [scanLoop, if_neg h, List.take_succ_cons, nlOffAll, ih]
      by_cases hv : v == 10 <;> simp [hv]

lemma scanLoop_snd (b : Int) (n : Nat) (p : List Nat) (i : Nat) (acc : List Int)
    (h : i + p.length ≤ n) : (scanLoop b n p i acc).2 = true := by
  induction p generalizing i acc with
  | nil => simp [scanLoop]
  | cons v rest ih =>
    have hlt : ¬ n ≤ i := by simp at h; omega
    simp only [scanLoop, if_neg hlt]
    exact ih (i + 1) _ (by simp at h ⊢; omega)

lemma Read_newlinePositions (lnr : LineNumberReader) (p : List Nat) (n : Nat)
    (hn : 0 < n) :
    (lnr.Read p n false).newlinePositions =
      lnr.newlinePositions ++ nlOffAll lnr.bytesRead (p.take n) 0 := by
  have hn' : ¬ (n == 0) = true := by simp; omega
  simp only [LineNumberReader.Read, Bool.false_or]
  rw [if_neg hn']
  simpa using scanLoop_fst lnr.bytesRead n p 0 lnr.newlinePositions

lemma readFull_newlinePositions (input : List Nat) :
    (readFull input).newlinePositions = nlOffAll 0 input 0 := by
  cases input with
  | nil => rfl
  | cons v rest =>
    rw [readFull, Read_newlinePositions _ _ _ (by simp)]
    simp [NewLineNumberReader]

lemma mem_nlOffAll {b : Int} {p : List Nat} {i : Nat} {x : Int}
    (hx : x ∈ nlOffAll b p i) : b + (i : Int) < x := by
  induction p generalizing i with
  | nil => simp [nlOffAll] at hx
  | cons v rest ih =>
    simp only [nlOffAll, List.mem_append] at hx
    rcases hx with hx | hx
    · by_cases hv : v == 10
      · simp [hv] at hx
        omega
      · simp [hv] at hx
    · have := ih hx
      push_cast at this ⊢
      omega

lemma pairwise_nlOffAll (b : Int) (p : List Nat) (i : Nat) :
    List.Pairwise (· < ·) (nlOffAll b p i) := by
  induction p generalizing i with
  | nil => simp [nlOffAll]
  | cons v rest ih =>
    by_cases hv : v == 10
    · simp only [nlOffAll, hv, if_pos]
      refine List.Pairwise.cons ?_ (ih (i + 1))
      intro x hx
      have := mem_nlOffAll hx
      push_cast at this ⊢
      omega
    · simp only [nlOffAll, hv, if_neg, List.nil_append]
      exact ih (i + 1)

lemma searchInts_le_length (ps : List Int) (x : Int) :
    searchInts ps x ≤ ps.length := by
  induction ps with
  | nil => simp [searchInts]
  | cons a rest ih =>
    simp only [searchInts, List.length_cons]
    split
    · omega
    · omega

lemma searchInts_eq (ps : List Int) (x : Int) (m : Nat) (hm : m ≤ ps.length)
    (hlt : ∀ j, j < m → ps.getD j 0 < x)
    (hge : m < ps.length → x ≤ ps.getD m 0) :
    searchInts ps x = m := by
  induction ps generalizing m with
  | nil =>
    simp at hm
    simp [searchInts, hm]
  | cons a rest ih =>
    cases m with
    | zero =>
      have hx : x ≤ a := by simpa using hge (by simp)
      simp [searchInts, hx]
    | succ m' =>
      have ha : a < x := by simpa using hlt 0 (Nat.succ_pos m')
      have hax : ¬ x ≤ a := by omega
      simp only [searchInts, if_neg hax]
      congr 1
      refine ih m' (by simpa using hm) ?_ ?_
      · intro j hj
        simpa using hlt (j + 1) (by omega)
      · intro hm2
        simpa using hge (by simpa using hm2)

lemma length_nlOffAll (b : Int) (p : List Nat) (i : Nat) :
    (nlOffAll b p i).length = p.count 10 := by
  induction p generalizing i with
  | nil => simp [nlOffAll]
  | cons v rest ih =>
    by_cases hv : v == 10
    · have hv' : v = 10 := by simpa using hv
      simp [nlOffAll, hv, ih, hv', List.count_cons]
    · have hv' : ¬ v = 10 := by simpa using hv
      simp [nlOffAll, hv, ih, List.count_cons, hv']

lemma pairwise_getD_lt {ps : List Int} (h : List.Pairwise (· < ·) ps) {j l : Nat}
    (hjl : j < l) (hl : l < ps.length) : ps.getD j 0 < ps.getD l 0 := by
  have hj : j < ps.length := lt_trans hjl hl
  rw [List.getD_eq_getElem ps 0 hj, List.getD_eq_getElem ps 0 hl]
  exact List.pairwise_iff_get.mp h ⟨j, hj⟩ ⟨l, hl⟩ (by exact_mod_cast hjl)

lemma lineStart_one (input : List Nat) : lineStart input 1 = 0 := rfl

lemma lineStart_eq_getD (input : List Nat) (i : Nat) (hi : 2 ≤ i) :
    lineStart input i = (nlOffAll 0 input 0).getD (i - 2) 0 := by
  show ((0 : Int) :: nlOffAll 0 input 0).getD (i - 1) 0 = _
  have h : i - 1 = (i - 2) + 1 := by omega
  rw [h]
  rfl

/-- `searchInts` over the recorded newline table lands on the queried line:
with `ps` the table, an offset inside 1-indexed line `i` (strictly after the
line's start for `i ≥ 2`) searches to insertion point `i - 1`. -/
lemma searchInts_line (input : List Nat) (i : Nat) (off : Int)
    (h1 : 1 ≤ i) (hk : i ≤ input.count 10 + 1)
    (hstrict : i = 1 ∨ lineStart input i < off)
    (hhi : i ≤ input.count 10 → off < lineStart input (i + 1)) :
    searchInts (nlOffAll 0 input 0) off = i - 1 := by
  set ps := nlOffAll 0 input 0 with hps
  have hlen : ps.length = input.count 10 := length_nlOffAll 0 input 0
  have hpair : List.Pairwise (· < ·) ps := pairwise_nlOffAll 0 input 0
  refine searchInts_eq ps off (i - 1) (by omega) ?_ ?_
  · intro j hj
    have hi2 : 2 ≤ i := by omega
    have hstrict' : lineStart input i < off := by
      rcases hstrict with h | h
      · omega
      · exact h
    have hls : lineStart input i = ps.getD (i - 2) 0 := lineStart_eq_getD input i hi2
    have hi2len : i - 2 < ps.length := by omega
    rcases Nat.lt_or_ge j (i - 2) with hjlt | hjge
    · have := pairwise_getD_lt hpair hjlt hi2len
      omega
    · have hj2 : j = i - 2 := by omega
      rw [hj2]
      omega
  · intro hm
    have hik : i ≤ input.count 10 := by omega
    have hoff := hhi hik
    have hls : lineStart input (i + 1) = ps.getD (i - 1) 0 := by
      have := lineStart_eq_getD input (i + 1) (by omega)
      simpa using this
    omega

/-- C4 (amended): after a full read of `input`, an offset inside 1-indexed
line `i` — strictly after the line's start when `i ≥ 2`, anywhere in the
line when `i = 1` — converts to line `i` with column `off` minus the
line's start offset. -/
theorem convertOffset_within_line (input : List Nat) (i : Nat) (off : Int)
    (h1 : 1 ≤ i) (hk : i ≤ input.count 10 + 1)
    (hlo : lineStart input i ≤ off)
    (hstrict : i = 1 ∨ lineStart input i < off)
    (hhi : i ≤ input.count 10 → off < lineStart input (i + 1)) :
    (readFull input).ConvertOffset off = ((i : Int), off - lineStart input i) := by
  have hsearch : searchInts ((readFull input).newlinePositions) off = i - 1 := by
    rw [readFull_newlinePositions]
    exact searchInts_line input i off h1 hk hstrict hhi
  rcases Nat.eq_or_lt_of_le h1 with h1' | h1'
  · -- line 1: insertion point 0, result (1, off)
    rw [LineNumberReader.ConvertOffset]
    simp only [hsearch, ← h1']
    simp [lineStart_one]
  · -- line i ≥ 2: insertion point i - 1 ≥ 1
    have hi2 : 2 ≤ i := h1'
    have hne : ¬ ((i - 1 : Nat) == 0) = true := by simp; omega
    rw [LineNumberReader.ConvertOffset]
    simp only [hsearch]
    rw [if_neg hne]
    have hcast : ((i - 1 : Nat) : Int) + 1 = (i : Int) := by omega
    have hidx : i - 1 - 1 = i - 2 := by omega
    rw [hcast, hidx, readFull_newlinePositions, ← lineStart_eq_getD input i hi2]

/-- C4 witness: input `"ab\nc"`, offset 4 sits in line 2 at column 1. -/
theorem convertOffset_within_line_witness :
    (readFull [97, 98, 10, 99]).ConvertOffset 4 =
      ((2 : Int), 4 - lineStart [97, 98, 10, 99] 2) :=
  convertOffset_within_line [97, 98, 10, 99] 2 4 (by decide) (by decide)
    (by decide) (by decide) (by decide)

/-- C4 counterexample: for input `"a\nb"`, offset 2 lies within line 2 (its
start-of-line offset is 2), so the claim demands `(2, 0)`; the code's
lower-bound search returns `(1, 2)` instead. -/
theorem convertOffset_line_start_counterexample :
    (readFull [97, 10, 98]).ConvertOffset 2 = (1, 2) ∧
    (readFull [97, 10, 98]).ConvertOffset 2 ≠ ((2 : Int), (0 : Int)) := by
  decide

/-- C1 (code bug): a read that delivers `n = 1` byte without error into a
2-byte buffer leaves `bytesRead` at 0 instead of incrementing it by 1 —
the early `return` in the scan loop skips the `bytesRead` update whenever
`n < len(p)`. -/
theorem read_partial_bytesRead_unchanged :
    (NewLineNumberReader.Read [97, 0] 1 false).bytesRead = 0 ∧
    ¬ (NewLineNumberReader.Read [97, 0] 1 false).bytesRead =
        NewLineNumberReader.bytesRead + 1 := by
  decide

/-- C3 (code bug): delivering the input `"\n\n"` as two 1-byte reads into a
2-byte buffer records `NewlinePositions = [1, 1]`, which is not strictly
increasing (the true table would be `[1, 2]`) — a consequence of the
skipped `bytesRead` update on partial reads. -/
theorem newlinePositions_partial_reads_violation :
    ((NewLineNumberReader.Read [10, 0] 1 false).Read [10, 0] 1 false).newlinePositions
      = [1, 1] ∧
    ¬ List.Pairwise (· < ·)
      (((NewLineNumberReader.Read [10, 0] 1 false).Read [10, 0] 1 false).newlinePositions) := by
  decide

/-- C2 counterexample: reader state after `"a\nb"` has the recorded entry 2;
querying offset 2 (exactly the recorded start-of-line boundary) yields
`(1, 2)` — the end of the previous line — not `(2, 0)` as the claim's
upper-bound reading demands. -/
theorem convertOffset_boundary_counterexample :
    LineNumberReader.ConvertOffset ⟨[2], 3⟩ 2 = (1, 2) ∧
    LineNumberReader.ConvertOffset ⟨[2], 3⟩ 2 ≠ ((2 : Int), (0 : Int)) := by
  decide

/-- C2 (amended): `ConvertOffset` performs a lower-bound search (first
recorded position greater than *or equal to* the offset), so an offset
equal to the `j`-th recorded entry (0-indexed) of a strictly increasing
table resolves to line `j + 1` — the line the newline terminates — with
column equal to the offset minus the previous line's start (`(0 :: ps)[j]`,
i.e. the offset itself when `j = 0`). -/
theorem convertOffset_boundary_lower_bound (ps : List Int) (b : Int) (j : Nat)
    (hj : j < ps.length) (hsort : List.Pairwise (· < ·) ps) :
    LineNumberReader.ConvertOffset ⟨ps, b⟩ (ps.getD j 0) =
      ((j : Int) + 1, ps.getD j 0 - ((0 : Int) :: ps).getD j 0) := by
  have hsearch : searchInts ps (ps.getD j 0) = j := by
    refine searchInts_eq ps (ps.getD j 0) j (le_of_lt hj) ?_ ?_
    · intro l hl
      exact pairwise_getD_lt hsort hl hj
    · intro _
      exact le_refl _
  cases j with
  | zero =>
    rw [LineNumberReader.ConvertOffset]
    simp only [hsearch]
    simp
  | succ j' =>
    have hne : ¬ ((j' + 1 : Nat) == 0) = true := by simp
    rw [LineNumberReader.ConvertOffset]
    simp only [hsearch]
    rw [if_neg hne]
    have h1 : j' + 1 - 1 = j' := rfl
    have h2 : ((0 : Int) :: ps).getD (j' + 1) 0 = ps.getD j' 0 := rfl
    rw [h1, h2]

/-- C2 witness: table `[2, 5]` (input `"ab\ncd\n"`), boundary offset 5 is the
second entry (`j = 1`): resolves to line 2, column 3. -/
theorem convertOffset_boundary_lower_bound_witness :
    LineNumberReader.ConvertOffset ⟨[2, 5], 6⟩ ([(2 : Int), 5].getD 1 0) =
      ((1 : Int) + 1, [(2 : Int), 5].getD 1 0 - ((0 : Int) :: [2, 5]).getD 1 0) :=
  convertOffset_boundary_lower_bound [2, 5] 6 1 (by decide) (by decide)

/-- C9: `ConvertOffset` is total and pure — for every recorded table and
every queried offset it returns a defined pair; the internal index stays
within bounds (`searchInts` never exceeds the table length, and the
`index - 1` lookup is in range whenever it happens); and the result does
not depend on `bytesRead`.  The embedding passes state by value, so no call
mutates `newlinePositions` or `bytesRead`; determinism is definitional. -/
theorem convertOffset_total_pure (ps : List Int) (b : Int) (off : Int) :
    (∃ l c, LineNumberReader.ConvertOffset ⟨ps, b⟩ off = (l, c)) ∧
    searchInts ps off ≤ ps.length ∧
    (0 < searchInts ps off → searchInts ps off - 1 < ps.length) ∧
    (∀ b' : Int, LineNumberReader.ConvertOffset ⟨ps, b⟩ off =
      LineNumberReader.ConvertOffset ⟨ps, b'⟩ off) := by
  refine ⟨⟨_, _, rfl⟩, searchInts_le_length ps off, ?_, fun b' => rfl⟩
  intro h
  have := searchInts_le_length ps off
  omega

/-- C9 witness: on table `[2]` and offset 5 the search lands at 1 and the
`index - 1` lookup is in range. -/
theorem convertOffset_total_pure_witness :
    searchInts [(2 : Int)] 5 - 1 < ([(2 : Int)]).length :=
  (convertOffset_total_pure [2] 0 5).2.2.1 (by decide)

/-- C10: a read delivering `n > 0` bytes without error records exactly the
newline offsets of the first `n` buffer bytes; buffer contents at indices
`≥ n` (stale data from earlier fills) never contribute a recorded
position — two buffers agreeing on their first `n` bytes record the same
table. -/
theorem read_scans_only_delivered_bytes (lnr : LineNumberReader)
    (p q : List Nat) (n : Nat) (hn : 0 < n) (hpq : p.take n = q.take n) :
    (lnr.Read p n false).newlinePositions =
      lnr.newlinePositions ++ nlOffAll lnr.bytesRead (p.take n) 0 ∧
    (lnr.Read p n false).newlinePositions =
      (lnr.Read q n false).newlinePositions := by
  refine ⟨Read_newlinePositions lnr p n hn, ?_⟩
  rw [Read_newlinePositions lnr p n hn, Read_newlinePositions lnr q n hn, hpq]

/-- C10 witness: buffers `[10, 99]` and `[10, 55]` agree on their first
byte; a 1-byte read records the same table from both. -/
theorem read_scans_only_delivered_bytes_witness :
    (NewLineNumberReader.Read [10, 99] 1 false).newlinePositions =
      NewLineNumberReader.newlinePositions ++
        nlOffAll NewLineNumberReader.bytesRead ([10, 99].take 1) 0 ∧
    (NewLineNumberReader.Read [10, 99] 1 false).newlinePositions =
      (NewLineNumberReader.Read [10, 55] 1 false).newlinePositions :=
  read_scans_only_delivered_bytes NewLineNumberReader [10, 99] [10, 55] 1
    (by decide) (by decide)

/-! ### The decode-evaluate-render pipeline (`runMain`, src/jp.go lines 95-173)

The external collaborators are abstracted exactly at the points where the Go
code branches on their outcomes: the streaming JSON decoder becomes a list
of decode outcomes (list exhausted = `io.EOF`), `jmespath.Search` becomes a
function from documents to evaluation outcomes, and the indented JSON
serializers (`json.MarshalIndent` / `jsoncolor.MarshalIndent`, two-space
indent) become a function from values to serialization outcomes.  Standard
output is the list of strings written, in order; standard error is the list
of diagnostic messages, abstracted as tagged constructors because the exact
wording is not part of the contract. -/

/-- A decoded JSON document: a dynamically-typed value tree.  The numeric
payload is irrelevant to every property proved here. -/
inductive JValue where
  | null
  | bool (b : Bool)
  | num (x : Int)
  | str (s : String)
  | arr (xs : List JValue)
  | obj (fs : List (String × JValue))

/-- Go `result.(string)`: does the dynamic type assertion succeed? -/
def JValue.isString : JValue → Bool
  | .str _ => true
  | _ => false

/-- Go `converted, _ := result.(string)`: the asserted string, with the Go
zero value `""` when the assertion fails. -/
def JValue.asString : JValue → String
  | .str s => s
  | _ => ""

/-- Outcome classes of `jmespath.Search`: a `jmespath.SyntaxError` (printed
with its highlighted location) or any other evaluation error. -/
inductive EvalErr where
  | synError
  | other

/-- One outcome of `jsonParser.Decode`: a decoded value, a
`*json.SyntaxError` (with its byte offset; `usable` models the
`Offset == int64(int(Offset))` range check), or any other non-EOF error. -/
inductive DecodeEvent where
  | val (v : JValue)
  | synError (usable : Bool) (off : Int)
  | otherError

/-- Diagnostic messages written to standard error, one constructor per
distinct `errMsg` call site of the Go source. -/
inductive ErrOut where
  | parseJsonAt (line char : Int)
  | parseJsonRaw
  | exprSynHighlight
  | evalMsg
  | marshalMsg
  | astRaw
deriving Repr, DecidableEq

/-- Observable result of one run: the process exit status, the chunks
written to standard output (in order), and the standard-error messages. -/
structure RunOutput where
  exit : Nat
  stdout : List String
  stderr : List ErrOut
deriving Repr, DecidableEq

/-- The decode-evaluate-render loop of `runMain` (src/jp.go lines 125-173).
`search` is `jmespath.Search` with the expression fixed; `marshal` is the
active indented JSON serializer; `lnr` is the positional stream reader the
decoder reads through, consulted to convert a reported error offset. -/
def runMainLoop (unquoted streamMode : Bool)
    (search : JValue → Except EvalErr JValue)
    (marshal : JValue → Except Unit String)
    (lnr : LineNumberReader) : List DecodeEvent → RunOutput
  | [] => { exit := 0, stdout := [], stderr := [] }
  | .synError usable off :: _ =>
    if usable then
      { exit := 2, stdout := [],
        stderr := [.parseJsonAt (lnr.ConvertOffset off).1 (lnr.ConvertOffset off).2] }
    else { exit := 2, stdout := [], stderr := [.parseJsonRaw] }
  | .otherError :: _ => { exit := 2, stdout := [], stderr := [.parseJsonRaw] }
  | .val v :: rest =>
    match search v with
    | .error .synError => { exit := 1, stdout := [], stderr := [.exprSynHighlight] }
    | .error .other => { exit := 1, stdout := [], stderr := [.evalMsg] }
    | .ok result =>
      if unquoted && result.isString then
        if streamMode then
          let r := runMainLoop unquoted streamMode search marshal lnr rest
          { exit := r.exit, stdout := result.asString :: "\n" :: r.stdout,
            stderr := r.stderr }
        else { exit := 0, stdout := [result.asString, "\n"], stderr := [] }
      else
        match marshal result with
        | .error _ => { exit := 3, stdout := [], stderr := [.marshalMsg] }
        | .ok toJSON =>
          if streamMode then
            let r := runMainLoop unquoted streamMode search marshal lnr rest
            { exit := r.exit, stdout := toJSON :: "\n" :: r.stdout,
              stderr := r.stderr }
          else { exit := 0, stdout := [toJSON, "\n"], stderr := [] }

/-- Outcome of `parser.Parse` in AST-only mode: the rendered parse tree, a
`jmespath.SyntaxError`, or any other parse error. -/
inductive AstParse where
  | ok (rendered : String)
  | synError
  | otherError

/-- `runMain` from the AST-mode check onward (src/jp.go lines 95-173): in
AST-only mode the expression is parsed and the run terminates without
touching the input; otherwise the decode-evaluate-render loop runs. -/
def runMain (astMode unquoted streamMode : Bool) (parseRes : AstParse)
    (search : JValue → Except EvalErr JValue)
    (marshal : JValue → Except Unit String)
    (lnr : LineNumberReader) (events : List DecodeEvent) : RunOutput :=
  if astMode then
    match parseRes with
    | .synError => { exit := 1, stdout := [], stderr := [.exprSynHighlight] }
    | .otherError => { exit := 1, stdout := [], stderr := [.astRaw] }
    | .ok rendered => { exit := 0, stdout := ["\n", rendered ++ "\n"], stderr := [] }
  else runMainLoop unquoted streamMode search marshal lnr events

/-- A decode outcome that the loop renders successfully and moves past:
a decoded value whose evaluation succeeds and whose rendering (raw string
in unquoted mode, serialized JSON otherwise) succeeds. -/
def docOk (unquoted : Bool) (search : JValue → Except EvalErr JValue)
    (marshal : JValue → Except Unit String) : DecodeEvent → Bool
  | .val v =>
    match search v with
    | .ok r =>
      (unquoted && r.isString) ||
        (match marshal r with | .ok _ => true | .error _ => false)
    | .error _ => false
  | _ => false

/-- The chunks a successfully rendered document writes to standard output. -/
def renderChunks (unquoted : Bool) (search : JValue → Except EvalErr JValue)
    (marshal : JValue → Except Unit String) : DecodeEvent → List String
  | .val v =>
    match search v with
    | .ok r =>
      if unquoted && r.isString then [r.asString, "\n"]
      else match marshal r with
        | .ok s => [s, "\n"]
        | .error _ => []
    | .error _ => []
  | _ => []

/-- Standard-output chunks of a list of successfully rendered documents. -/
def renderOuts (unquoted : Bool) (search : JValue → Except EvalErr JValue)
    (marshal : JValue → Except Unit String) (events : List DecodeEvent) :
    List String :=
  events.foldr (fun e acc => renderChunks unquoted search marshal e ++ acc) []

/-- The exit status a decode outcome fails with, if it fails: 2 for decode
errors, 1 for evaluation errors, 3 for serialization errors. -/
def failCode (unquoted : Bool) (search : JValue → Except EvalErr JValue)
    (marshal : JValue → Except Unit String) : DecodeEvent → Option Nat
  | .val v =>
    match search v with
    | .error _ => some 1
    | .ok r =>
      if unquoted && r.isString then none
      else match marshal r with
        | .ok _ => none
        | .error _ => some 3
  | .synError _ _ => some 2
  | .otherError => some 2

/-- The standard-error message a failing decode outcome produces. -/
def failMsg (unquoted : Bool) (search : JValue → Except EvalErr JValue)
    (marshal : JValue → Except Unit String) (lnr : LineNumberReader) :
    DecodeEvent → List ErrOut
  | .val v =>
    match search v with
    | .error .synError => [.exprSynHighlight]
    | .error .other => [.evalMsg]
    | .ok r =>
      if unquoted && r.isString then []
      else match marshal r with
        | .ok _ => []
        | .error _ => [.marshalMsg]
  | .synError usable off =>
    if usable then [.parseJsonAt (lnr.ConvertOffset off).1 (lnr.ConvertOffset off).2]
    else [.parseJsonRaw]
  | .otherError => [.parseJsonRaw]

/-! ### Lemmas about the pipeline loop -/

lemma runMainLoop_nil (u s : Bool) (f : JValue → Except EvalErr JValue)
    (m : JValue → Except Unit String) (lnr : LineNumberReader) :
    runMainLoop u s f m lnr [] = { exit := 0, stdout := [], stderr := [] } := rfl

lemma runMainLoop_fail_head (u s : Bool) (f : JValue → Except EvalErr JValue)
    (m : JValue → Except Unit String) (lnr : LineNumberReader)
    (bad : DecodeEvent) (c : Nat) (hb : failCode u f m bad = some c)
    (rest : List DecodeEvent) :
    runMainLoop u s f m lnr (bad :: rest) =
      { exit := c, stdout := [], stderr := failMsg u f m lnr bad } := by
  cases bad with
  | synError usable off =>
    have hc : c = 2 := by simpa [failCode] using hb.symm
    subst hc
    cases usable <;> simp [runMainLoop, failMsg]
  | otherError =>
    have hc : c = 2 := by simpa [failCode] using hb.symm
    subst hc
    simp [runMainLoop, failMsg]
  | val v =>
    cases hs : f v with
    | error e =>
      have hc : c = 1 := by simpa [failCode, hs] using hb.symm
      subst hc
      cases e <;> simp [runMainLoop, failMsg, hs]
    | ok r =>
      cases hu : u && r.isString with
      | true => simp [failCode, hs, hu] at hb
      | false =>
        cases hm : m r with
        | ok out => simp [failCode, hs, hu, hm] at hb
        | error e =>
          have hc : c = 3 := by simpa [failCode, hs, hu, hm] using hb.symm
          subst hc
          simp [runMainLoop, failMsg, hs, hu, hm]

lemma runMainLoop_ok_head_stream (u : Bool) (f : JValue → Except EvalErr JValue)
    (m : JValue → Except Unit String) (lnr : LineNumberReader)
    (e : DecodeEvent) (he : docOk u f m e = true) (rest : List DecodeEvent) :
    runMainLoop u true f m lnr (e :: rest) =
      { exit := (runMainLoop u true f m lnr rest).exit,
        stdout := renderChunks u f m e ++ (runMainLoop u true f m lnr rest).stdout,
        stderr := (runMainLoop u true f m lnr rest).stderr } := by
  cases e with
  | synError usable off => simp [docOk] at he
  | otherError => simp [docOk] at he
  | val v =>
    cases hs : f v with
    | error e' => simp [docOk, hs] at he
    | ok r =>
      cases hu : u && r.isString with
      | true => simp [runMainLoop, renderChunks, hs, hu]
      | false =>
        cases hm : m r with
        | error e' => simp [docOk, hs, hu, hm] at he
        | ok out => simp [runMainLoop, renderChunks, hs, hu, hm]

lemma runMainLoop_ok_head_single (u : Bool) (f : JValue → Except EvalErr JValue)
    (m : JValue → Except Unit String) (lnr : LineNumberReader)
    (e : DecodeEvent) (he : docOk u f m e = true) (rest : List DecodeEvent) :
    runMainLoop u false f m lnr (e :: rest) =
      { exit := 0, stdout := renderChunks u f m e, stderr := [] } := by
  cases e with
  | synError usable off => simp [docOk] at he
  | otherError => simp [docOk] at he
  | val v =>
    cases hs : f v with
    | error e' => simp [docOk, hs] at he
    | ok r =>
      cases hu : u && r.isString with
      | true => simp [runMainLoop, renderChunks, hs, hu]
      | false =>
        cases hm : m r with
        | error e' => simp [docOk, hs, hu, hm] at he
        | ok out => simp [runMainLoop, renderChunks, hs, hu, hm]

lemma runMainLoop_ok_run (u : Bool) (f : JValue → Except EvalErr JValue)
    (m : JValue → Except Unit String) (lnr : LineNumberReader)
    (goods : List DecodeEvent) (hg : ∀ e ∈ goods, docOk u f m e = true)
    (tail : List DecodeEvent) :
    runMainLoop u true f m lnr (goods ++ tail) =
      { exit := (runMainLoop u true f m lnr tail).exit,
        stdout := renderOuts u f m goods ++ (runMainLoop u true f m lnr tail).stdout,
        stderr := (runMainLoop u true f m lnr tail).stderr } := by
  induction goods with
  | nil => simp [renderOuts]
  | cons e goods' ih =>
    have he : docOk u f m e = true := hg e (by simp)
    have hg' : ∀ e' ∈ goods', docOk u f m e' = true := fun e' h' => hg e' (by simp [h'])
    rw [List.cons_append, runMainLoop_ok_head_stream u f m lnr e he (goods' ++ tail),
      ih hg']
    simp [renderOuts]

/-- C5: every failure terminates the run with its class's exit status —
decode errors (syntax or otherwise) with status 2, with line/column via
`ConvertOffset` in the message exactly when the reported offset is usable
and the raw message otherwise; evaluation errors with status 1;
serialization errors with status 3 — and no event after the failing one is
processed: the run's outcome equals the run truncated right after the
failure, and standard output holds only the documents rendered before it. -/
theorem pipeline_failure_classes (u : Bool) (f : JValue → Except EvalErr JValue)
    (m : JValue → Except Unit String) (lnr : LineNumberReader)
    (goods : List DecodeEvent) (bad : DecodeEvent) (rest : List DecodeEvent)
    (c : Nat) (hg : ∀ e ∈ goods, docOk u f m e = true)
    (hb : failCode u f m bad = some c) :
    runMainLoop u true f m lnr (goods ++ bad :: rest) =
      { exit := c, stdout := renderOuts u f m goods,
        stderr := failMsg u f m lnr bad } ∧
    runMainLoop u true f m lnr (goods ++ bad :: rest) =
      runMainLoop u true f m lnr (goods ++ [bad]) ∧
    (∀ usable off, bad = .synError usable off → c = 2) ∧
    (bad = .otherError → c = 2) ∧
    (∀ v e, bad = .val v → f v = .error e → c = 1) ∧
    (∀ v r, bad = .val v → f v = .ok r → c = 3) ∧
    (∀ off, bad = .synError true off →
      failMsg u f m lnr bad =
        [.parseJsonAt (lnr.ConvertOffset off).1 (lnr.ConvertOffset off).2]) ∧
    (∀ off, bad = .synError false off →
      failMsg u f m lnr bad = [.parseJsonRaw]) := by
  have hfail := runMainLoop_fail_head u true f m lnr bad c hb
  have h1 : runMainLoop u true f m lnr (goods ++ bad :: rest) =
      { exit := c, stdout := renderOuts u f m goods,
        stderr := failMsg u f m lnr bad } := by
    rw [runMainLoop_ok_run u f m lnr goods hg (bad :: rest), hfail rest]
    simp
  refine ⟨h1, ?_, ?_, ?_, ?_, ?_, ?_, ?_⟩
  · rw [h1, runMainLoop_ok_run u f m lnr goods hg [bad],
      hfail []]
    simp
  · rintro usable off rfl
    simpa [failCode] using hb.symm
  · rintro rfl
    simpa [failCode] using hb.symm
  · rintro v e rfl hv
    simpa [failCode, hv] using hb.symm
  · rintro v r rfl hv
    cases hu : u && r.isString with
    | true => simp [failCode, hv, hu] at hb
    | false =>
      cases hm : m r with
      | ok out => simp [failCode, hv, hu, hm] at hb
      | error e => simpa [failCode, hv, hu, hm] using hb.symm
  · rintro off rfl
    simp [failMsg]
  · rintro off rfl
    simp [failMsg]

/-- C5 witness: a serialization failure on the first document (exit 3),
with one more event after it that the run never reaches. -/
theorem pipeline_failure_classes_witness :
    runMainLoop false true (fun v => Except.ok v) (fun _ => Except.error ())
        NewLineNumberReader
        ([] ++ DecodeEvent.val .null :: [DecodeEvent.val .null]) =
      { exit := 3,
        stdout := renderOuts false (fun v => Except.ok v)
          (fun _ => Except.error ()) [],
        stderr := failMsg false (fun v => Except.ok v) (fun _ => Except.error ())
          NewLineNumberReader (.val .null) } :=
  (pipeline_failure_classes false (fun v => Except.ok v)
    (fun _ => Except.error ()) NewLineNumberReader [] (.val .null)
    [.val .null] 3 (by simp) rfl).1

/-- C6: two back-to-back successfully rendered documents are both written,
in input order, with exit 0 in streaming mode; non-streaming mode writes
exactly the first and exits 0.  In streaming mode a failure on the Nth
document aborts the run without attempting anything after it, and the
output already written for the documents before it remains. -/
theorem pipeline_streaming_two_docs (u : Bool)
    (f : JValue → Except EvalErr JValue) (m : JValue → Except Unit String)
    (lnr : LineNumberReader) (v1 v2 : JValue)
    (h1 : docOk u f m (.val v1) = true) (h2 : docOk u f m (.val v2) = true) :
    runMainLoop u true f m lnr [.val v1, .val v2] =
      { exit := 0,
        stdout := renderChunks u f m (.val v1) ++ renderChunks u f m (.val v2),
        stderr := [] } ∧
    runMainLoop u false f m lnr [.val v1, .val v2] =
      { exit := 0, stdout := renderChunks u f m (.val v1), stderr := [] } ∧
    (∀ goods bad rest, (∀ e ∈ goods, docOk u f m e = true) →
      (failCode u f m bad).isSome = true →
      (runMainLoop u true f m lnr (goods ++ bad :: rest)).stdout =
        renderOuts u f m goods ∧
      runMainLoop u true f m lnr (goods ++ bad :: rest) =
        runMainLoop u true f m lnr (goods ++ [bad])) := by
  refine ⟨?_, ?_, ?_⟩
  · rw [runMainLoop_ok_head_stream u f m lnr (.val v1) h1 [.val v2],
      runMainLoop_ok_head_stream u f m lnr (.val v2) h2 []]
    simp [runMainLoop_nil]
  · exact runMainLoop_ok_head_single u f m lnr (.val v1) h1 [.val v2]
  · intro goods bad rest hg hbs
    rcases Option.isSome_iff_exists.mp hbs with ⟨c, hb⟩
    have hfail := runMainLoop_fail_head u true f m lnr bad c hb
    constructor
    · rw [runMainLoop_ok_run u f m lnr goods hg (bad :: rest), hfail rest]
      simp
    · rw [runMainLoop_ok_run u f m lnr goods hg (bad :: rest), hfail rest,
        runMainLoop_ok_run u f m lnr goods hg [bad], hfail []]

/-- C6 witness: two documents, plain rendering, streaming mode writes both
chunk lists in order with exit 0. -/
theorem pipeline_streaming_two_docs_witness :
    runMainLoop false true (fun v => Except.ok v) (fun _ => Except.ok "X")
        NewLineNumberReader [.val (.str "a"), .val .null] =
      { exit := 0,
        stdout := renderChunks false (fun v => Except.ok v)
            (fun _ => Except.ok "X") (.val (.str "a")) ++
          renderChunks false (fun v => Except.ok v)
            (fun _ => Except.ok "X") (.val .null),
        stderr := [] } :=
  (pipeline_streaming_two_docs false (fun v => Except.ok v)
    (fun _ => Except.ok "X") NewLineNumberReader (.str "a") .null rfl rfl).1

/-- C7: when the evaluation result is a string and the unquoted switch is
on, the run writes exactly the raw string bytes and one newline; with the
switch off or a non-string result it writes the indented JSON serialization
and one newline — one trailing newline in both branches. -/
theorem render_unquoted_string (u s : Bool)
    (f : JValue → Except EvalErr JValue) (m : JValue → Except Unit String)
    (lnr : LineNumberReader) (v r : JValue) (h : f v = .ok r) :
    (u = true → r.isString = true →
      runMainLoop u s f m lnr [.val v] =
        { exit := 0, stdout := [r.asString, "\n"], stderr := [] }) ∧
    ((u && r.isString) = false → ∀ out, m r = .ok out →
      runMainLoop u s f m lnr [.val v] =
        { exit := 0, stdout := [out, "\n"], stderr := [] }) := by
  constructor
  · intro hu hr
    cases s <;> simp [runMainLoop, h, hu, hr, runMainLoop_nil]
  · intro hu out hm
    cases s <;> simp [runMainLoop, h, hu, hm, runMainLoop_nil]

/-- C7 witness: projecting the string `"hello"` with the unquoted switch on
writes exactly `hello` and a newline. -/
theorem render_unquoted_string_witness :
    runMainLoop true false (fun v => Except.ok v) (fun _ => Except.ok "\"hello\"")
        NewLineNumberReader [.val (.str "hello")] =
      { exit := 0, stdout := [(JValue.str "hello").asString, "\n"], stderr := [] } :=
  (render_unquoted_string true false (fun v => Except.ok v)
    (fun _ => Except.ok "\"hello\"") NewLineNumberReader (.str "hello")
    (.str "hello") rfl).1 rfl rfl

/-- C8: in AST-only mode the run never reads from the input source — the
outcome is independent of the decode-event stream; a syntax error in the
expression reports the message with its highlighted location and exits 1
(any other parse error also exits 1), and a valid expression prints the
parsed structure's textual form and exits 0. -/
theorem ast_mode_no_input (u s : Bool) (pr : AstParse)
    (f : JValue → Except EvalErr JValue) (m : JValue → Except Unit String)
    (lnr : LineNumberReader) (events : List DecodeEvent) :
    runMain true u s pr f m lnr events = runMain true u s pr f m lnr [] ∧
    (pr = .synError → runMain true u s pr f m lnr events =
      { exit := 1, stdout := [], stderr := [.exprSynHighlight] }) ∧
    (pr = .otherError → runMain true u s pr f m lnr events =
      { exit := 1, stdout := [], stderr := [.astRaw] }) ∧
    (∀ t, pr = .ok t → runMain true u s pr f m lnr events =
      { exit := 0, stdout := ["\n", t ++ "\n"], stderr := [] }) := by
  cases pr <;> simp [runMain]

/-- C8 witness: AST mode with a syntactically invalid expression exits 1
without processing the malformed decode event that follows in the input. -/
theorem ast_mode_no_input_witness :
    runMain true false false .synError (fun v => Except.ok v)
        (fun _ => Except.ok "") NewLineNumberReader [.otherError] =
      { exit := 1, stdout := [], stderr := [.exprSynHighlight] } :=
  (ast_mode_no_input false false .synError (fun v => Except.ok v)
    (fun _ => Except.ok "") NewLineNumberReader [.otherError]).2.1 rfl
